import Mathlib

/-!
Shallow embedding of `src/dnn-train.cpp` (libdnn) and proofs about its
training-loop controller, the early-stopping policy `isEoutStopDecrease`,
and the command-line driven configuration of `main`.

Conventions of the embedding:
* `size_t` values are natural numbers; wherever the C++ code performs
  `size_t` subtraction whose wraparound matters, we compute explicitly
  modulo `2 ^ 64` (`usub64`).
* `float` quantities (learning rate, accuracies) are embedded as `ℚ`.
* Unchecked `std::vector` indexing (`operator[]`) is embedded as an
  `Option`-valued read (`readIdx`); `none` marks the out-of-bounds case,
  which in the C++ program is undefined behaviour.
* External collaborators (the `DNN` model, `DataSet`, `dnn_predict`'s
  GPU evaluation) are oracles: per-epoch error counts are given by
  sequences `EinSeq EoutSeq : ℕ → ℕ`, and the controller's calls into
  the collaborators are recorded as an event trace.
-/

/-- `size_t` subtraction `a - b` with 64-bit wraparound, for `a, b < 2^64`. -/
def usub64 (a b : ℕ) : ℕ :=
  (a + 2 ^ 64 - b) % 2 ^ 64

/-- Unchecked `std::vector<size_t>::operator[]` embedded as a checked read:
`some` of the element when the index is in bounds, `none` (undefined
behaviour in the C++ program) otherwise. -/
def readIdx (v : List ℕ) (i : ℕ) : Option ℕ :=
  if h : i < v.length then some (v.get ⟨i, h⟩) else none

/-- Loop of `isEoutStopDecrease` (dnn-train.cpp:206-209), iterating
`i = i0, i0+1, ...` with `rem` iterations remaining.  Each iteration
computes `j = epoch - i` in `size_t` arithmetic; when `j > 0` it reads
`Eout[epoch]` and `Eout[j]` and returns `false` as soon as
`Eout[epoch] > Eout[j]`. -/
def stopFrom (Eout : List ℕ) (epoch : ℕ) : ℕ → ℕ → Option Bool
  | _, 0 => some true
  | i, rem + 1 =>
    if 0 < usub64 epoch i then
      match readIdx Eout epoch, readIdx Eout (usub64 epoch i) with
      | some a, some b =>
        if b < a then some false else stopFrom Eout epoch (i + 1) rem
      | _, _ => none
    else stopFrom Eout epoch (i + 1) rem

/-- `isEoutStopDecrease` (dnn-train.cpp:204-212): scans offsets
`i ∈ [0, nNonIncEpoch)` and returns `false` iff some guarded comparison
`Eout[epoch] > Eout[epoch - i]` holds; the subtraction `epoch - i` is
`size_t` arithmetic and the vector reads are unchecked. -/
def isEoutStopDecrease (Eout : List ℕ) (epoch nNonIncEpoch : ℕ) : Option Bool :=
  stopFrom Eout epoch 0 nNonIncEpoch

/-- The window condition of spec §4.4, written from the spec's words: for
every offset `i ∈ [0, n)` such that `epoch - i > 0` (mathematical
subtraction, i.e. `i < epoch`), the current error count is no worse than
the earlier one, `Eout[epoch] ≤ Eout[epoch - i]`. -/
def specNonIncWindow (Eout : List ℕ) (epoch n : ℕ) : Prop :=
  ∀ i, i < n → 0 < epoch - i → Eout.getD epoch 0 ≤ Eout.getD (epoch - i) 0

instance instDecidableSpecNonIncWindow (Eout : List ℕ) (epoch n : ℕ) :
    Decidable (specNonIncWindow Eout epoch n) := by
  unfold specNonIncWindow
  infer_instance

/-- `struct Config` as far as dnn-train.cpp uses it (fields set at
dnn-train.cpp:85-89 and read at 127, 130, 175). -/
structure Config where
  variance : ℚ
  learningRate : ℚ
  minValidAccuracy : ℚ
  maxEpoch : ℕ
  nNonIncEpoch : ℕ
  deriving DecidableEq

/-- Modelled from the spec: the error-measure enumeration consumed by
`getError`/`zeroOneError` (declared in `dnn-utility.h`, which is not under
`src/`): cross-entropy for classification, mean-squared error for
regression. -/
inductive ERROR_MEASURE where
  | CROSS_ENTROPY
  | MSE
  deriving DecidableEq

/-- The command-line option values `main` reads (dnn-train.cpp:65-81),
plus `--type`, which is registered (dnn-train.cpp:53-55) but never read. -/
structure CmdOptions where
  train_fn : String
  model_in : String
  model_out : String
  input_dim : ℕ
  normalize : ℕ
  nf : String
  base : ℤ
  ratio : ℤ
  maxEpoch : ℕ
  minAcc : ℚ
  learningRate : ℚ
  variance : ℚ
  batchSize : ℕ
  type : ℕ
  cache : ℕ
  deriving DecidableEq

/-- Everything observable that `main` (dnn-train.cpp:28-116) assembles
before and around the call to `dnn_train`: the cache sizing, the `Config`
handed to the model, the data-loading parameters, the split ratio, the
batch size, the error measure passed to `dnn_train`, and the path the
model is saved to. -/
structure MainPlan where
  cacheSize : ℕ
  config : Config
  modelInPath : String
  trainFile : String
  inputDim : ℕ
  labelBase : ℤ
  normType : ℕ
  splitRatio : ℤ
  batchSize : ℕ
  errorMeasure : ERROR_MEASURE
  modelOutPath : String
  deriving DecidableEq

/-- `train_fn.substr(train_fn.find_last_of('/') + 1)`
(dnn-train.cpp:111): the suffix after the last `/`; when there is no `/`,
`find_last_of` yields `npos` and `npos + 1 = 0`, so the whole string. -/
def afterLastSlash (s : String) : String :=
  ⟨s.data.foldl (fun acc c => if c = '/' then [] else acc ++ [c]) []⟩

/-- `main` (dnn-train.cpp:28-116) as a function from the parsed option
values to the plan it assembles.  `dflt` is the default-constructed
`Config` (its constructor lives in `dnn.h`, outside `src/`); main
overwrites `variance`, `learningRate`, `minValidAccuracy` and `maxEpoch`
(dnn-train.cpp:85-89) and leaves the other fields at their defaults.
The error measure is the constant `CROSS_ENTROPY` (dnn-train.cpp:106). -/
def mainPlan (dflt : Config) (o : CmdOptions) : MainPlan :=
  { cacheSize := o.cache
    config :=
      { variance := o.variance
        learningRate := o.learningRate
        minValidAccuracy := o.minAcc
        maxEpoch := o.maxEpoch
        nNonIncEpoch := dflt.nNonIncEpoch }
    modelInPath := o.model_in
    trainFile := o.train_fn
    inputDim := o.input_dim
    labelBase := o.base
    normType := o.normalize
    splitRatio := o.ratio
    batchSize := o.batchSize
    errorMeasure := ERROR_MEASURE.CROSS_ENTROPY
    modelOutPath :=
      if o.model_out = "" then afterLastSlash o.train_fn ++ ".model"
      else o.model_out }

/-- Calls the training-loop controller `dnn_train` makes into its
collaborators and its console output, recorded as a trace.  `backProp`
carries the effective learning rate handed to `DNN::backPropagate`
(dnn-train.cpp:157); `pushEout` is the append to the `Eout` history
(dnn-train.cpp:161); `progressDot` is the lightweight marker of the
skip path (dnn-train.cpp:166); `printRow` is the epoch summary row
(dnn-train.cpp:172-173); `policyCall` is the call to
`isEoutStopDecrease` (dnn-train.cpp:175) with its result; `adjustLR` is
`DNN::adjustLearningRate` (dnn-train.cpp:178). -/
inductive Event where
  | backProp (epoch bStart bEnd : ℕ) (lr : ℚ)
  | pushEout (epoch v : ℕ)
  | progressDot (epoch : ℕ)
  | printRow (epoch : ℕ) (trainAcc : ℚ) (trainCorrect : ℕ) (validAcc : ℚ) (validCorrect : ℕ)
  | policyCall (epoch : ℕ) (result : Bool)
  | adjustLR (epoch : ℕ) (trainAcc : ℚ)
  deriving DecidableEq

/-- Control outcome of one iteration of the epoch loop: fall through to
the next epoch (`next`), the `break` of the stopping check (`stop`), or
an out-of-bounds history read, which in the C++ program is undefined
behaviour — either by the controller itself (`ubRead`, for `Eout[epoch]`)
or inside the stopping policy (`ubPolicy`). -/
inductive Ctl where
  | next
  | stop
  | ubRead
  | ubPolicy
  deriving DecidableEq

/-- Result of one iteration of the epoch loop: the history after the
iteration's `push_back`, the iteration's event trace, and its control
outcome. -/
structure EpochOut where
  hist : List ℕ
  events : List Event
  ctl : Ctl
  deriving DecidableEq

/-- How a whole run ended: `converged` via the stopping check's `break`,
`exhausted` after `maxEpoch` iterations, or stuck at undefined
behaviour. -/
inductive TermKind where
  | converged (epoch : ℕ)
  | exhausted (epoch : ℕ)
  | ubRead (epoch : ℕ)
  | ubPolicy (epoch : ℕ)
  deriving DecidableEq

/-- Discriminator: did the run end at an out-of-bounds read performed by
the controller itself? -/
def TermKind.isUbRead : TermKind → Bool
  | TermKind.ubRead _ => true
  | _ => false

/-- Result of a whole run of the epoch loop. -/
structure RunResult where
  kind : TermKind
  hist : List ℕ
  events : List Event
  deriving DecidableEq

/-- Modelled from the spec: `class Batches` (declared in `batch.h`, which
is not under `src/`), per spec §4.1 — contiguous ascending half-open
ranges of size `batchSize` covering `[0, total)`, the last possibly
shorter. -/
def batchRanges (batchSize total : ℕ) : List (ℕ × ℕ) :=
  (List.range ((total + batchSize - 1) / batchSize)).map
    (fun k => (k * batchSize, min ((k + 1) * batchSize) total))

/-- The batch loop of one epoch (dnn-train.cpp:147-158): one
`backPropagate` call per batch, each with the effective learning rate
`lr` computed once at dnn-train.cpp:130. -/
def batchEvents (epoch batchSize total : ℕ) (lr : ℚ) : List Event :=
  (batchRanges batchSize total).map (fun r => Event.backProp epoch r.1 r.2 lr)

/-- One iteration of the epoch loop of `dnn_train`
(dnn-train.cpp:145-179), given the epoch's `dnn_predict` results `Ein`
(training set) and `EoutV` (validation set) as oracle values.  In program
order: the batch loop, the unconditional `Eout.push_back`
(dnn-train.cpp:161), the `trainAcc < 0` skip (dnn-train.cpp:163-168,
`float` accuracies embedded as `ℚ`), the `Eout[epoch]` read and summary
row (dnn-train.cpp:170-173), the short-circuit stopping check
(dnn-train.cpp:175-176), and the learning-rate adjustment
(dnn-train.cpp:178). -/
def epochBody (cfg : Config) (batchSize nTrain nValid : ℕ) (lr : ℚ)
    (Ein EoutV : ℕ) (hist : List ℕ) (epoch : ℕ) : EpochOut :=
  let hist2 := hist ++ [EoutV]
  let trainAcc : ℚ := 1 - (Ein : ℚ) / (nTrain : ℚ)
  let tail : List Event × Ctl :=
    if trainAcc < 0 then
      ([Event.pushEout epoch EoutV, Event.progressDot epoch], Ctl.next)
    else
      match readIdx hist2 epoch with
      | none => ([Event.pushEout epoch EoutV], Ctl.ubRead)
      | some eoutE =>
        let validAcc : ℚ := 1 - (eoutE : ℚ) / (nValid : ℚ)
        let row := Event.printRow epoch trainAcc (nTrain - Ein) validAcc (nValid - eoutE)
        if cfg.minValidAccuracy < validAcc then
          match isEoutStopDecrease hist2 epoch cfg.nNonIncEpoch with
          | none =>
            ([Event.pushEout epoch EoutV, row], Ctl.ubPolicy)
          | some true =>
            ([Event.pushEout epoch EoutV, row, Event.policyCall epoch true], Ctl.stop)
          | some false =>
            ([Event.pushEout epoch EoutV, row, Event.policyCall epoch false,
              Event.adjustLR epoch trainAcc], Ctl.next)
        else
          ([Event.pushEout epoch EoutV, row, Event.adjustLR epoch trainAcc], Ctl.next)
  ⟨hist2, batchEvents epoch batchSize nTrain lr ++ tail.1, tail.2⟩

/-- The epoch loop of `dnn_train` (dnn-train.cpp:145-179) from epoch
`epoch` with `k` epochs left before `maxEpoch` is reached, accumulating
the history `hist` and the trace `evs`. -/
def runFrom (cfg : Config) (batchSize nTrain nValid : ℕ) (lr : ℚ)
    (EinSeq EoutSeq : ℕ → ℕ) : ℕ → ℕ → List ℕ → List Event → RunResult
  | 0, epoch, hist, evs => ⟨TermKind.exhausted epoch, hist, evs⟩
  | k + 1, epoch, hist, evs =>
    match epochBody cfg batchSize nTrain nValid lr (EinSeq epoch) (EoutSeq epoch) hist epoch with
    | ⟨h2, ev2, Ctl.next⟩ =>
      runFrom cfg batchSize nTrain nValid lr EinSeq EoutSeq k (epoch + 1) h2 (evs ++ ev2)
    | ⟨h2, ev2, Ctl.stop⟩ => ⟨TermKind.converged epoch, h2, evs ++ ev2⟩
    | ⟨h2, ev2, Ctl.ubRead⟩ => ⟨TermKind.ubRead epoch, h2, evs ++ ev2⟩
    | ⟨h2, ev2, Ctl.ubPolicy⟩ => ⟨TermKind.ubPolicy epoch, h2, evs ++ ev2⟩

/-- `dnn_train` (dnn-train.cpp:118-189): computes the effective learning
rate `lr = Config.learningRate / batchSize` once (dnn-train.cpp:130) and
runs the epoch loop from epoch 0 with empty history and trace. -/
def dnn_train_run (cfg : Config) (batchSize nTrain nValid : ℕ)
    (EinSeq EoutSeq : ℕ → ℕ) : RunResult :=
  runFrom cfg batchSize nTrain nValid (cfg.learningRate / (batchSize : ℚ))
    EinSeq EoutSeq cfg.maxEpoch 0 [] []

/-- The out-of-sample history after `n` completed epochs: one
`dnn_predict` count per epoch, in epoch order. -/
def histSoFar (EoutSeq : ℕ → ℕ) (n : ℕ) : List ℕ :=
  (List.range n).map EoutSeq

/-- The event is either not a `backProp`, or carries learning rate `q`. -/
def lrOnly (q : ℚ) (ev : Event) : Prop :=
  ∀ e b1 b2 r, ev = Event.backProp e b1 b2 r → r = q

-- ===================== THEOREMS =====================

/-- C2: the claim says the index computation `epoch - i` never underflows
and every access `Eout[epoch - i]` is in bounds.  At `Eout = [5]`,
`epoch = 0 < length Eout`, `nNonIncEpoch = 2`, the offset `i = 1` makes
`epoch - i` wrap to `2^64 - 1`, the guard `epoch - i > 0` passes, and the
read `Eout[2^64 - 1]` takes the out-of-bounds branch: the embedded call
returns `none`. -/
theorem C2_oob_eval : isEoutStopDecrease [5] 0 2 = none := by decide

/-- C3: the claim says `isEoutStopDecrease (Eout, 0, n) = true` for every
`n` on a non-empty history.  On `Eout = [3]` this holds for `n = 1`, but
for `n = 3` the wrapped offset at `i = 1` sends the read out of bounds
(`none`) instead of returning `true`. -/
theorem C3_epoch0_eval :
    isEoutStopDecrease [3] 0 3 = none ∧ isEoutStopDecrease [3] 0 1 = some true := by
  constructor
  · decide
  · decide

/-- C1: at `Eout = [5, 4]`, `epoch = 1`, `nNonIncEpoch = 3` the claim's
window condition holds (so the claimed iff requires the function to return
`true`), yet the embedded `isEoutStopDecrease` passes the guarded
comparisons for `i = 0, 1` and then, at `i = 2`, wraps `epoch - i` to
`2^64 - 1` and reaches the out-of-bounds branch, returning `none`. -/
theorem C1_underflow_eval :
    isEoutStopDecrease [5, 4] 1 3 = none ∧ specNonIncWindow [5, 4] 1 3 := by
  constructor
  · decide
  · decide

/-- For arguments inside the `size_t` domain with no wraparound,
`usub64` is plain subtraction. -/
theorem usub64_of_le (a b : ℕ) (hba : b ≤ a) (ha : a < 2 ^ 64) :
    usub64 a b = a - b := by
  unfold usub64
  have h1 : a + 2 ^ 64 - b = (a - b) + 2 ^ 64 := by omega
  rw [h1, Nat.add_mod_right, Nat.mod_eq_of_lt (by omega)]

/-- An in-bounds `readIdx` is `some` of the (defaulted) element. -/
theorem readIdx_of_lt (v : List ℕ) (i : ℕ) (h : i < v.length) :
    readIdx v i = some (v.getD i 0) := by
  unfold readIdx
  rw [dif_pos h]
  congr 1
  rw [List.getD_eq_getElem?_getD, List.getElem?_eq_getElem h]
  rfl

/-- Loop invariant for `stopFrom`: starting at offset `i0` with `rem`
iterations remaining, inside the guarded region (`i0 + rem ≤ epoch + 1`)
the loop returns `some true` exactly when every remaining guarded
comparison passes. -/
theorem stopFrom_eq_spec (Eout : List ℕ) (epoch : ℕ)
    (hE : epoch < Eout.length) (hB : Eout.length ≤ 2 ^ 64) :
    ∀ rem i0, i0 + rem ≤ epoch + 1 →
      (stopFrom Eout epoch i0 rem = some true ↔
        ∀ i, i0 ≤ i → i < i0 + rem → 0 < epoch - i →
          Eout.getD epoch 0 ≤ Eout.getD (epoch - i) 0) := by
  intro rem
  induction rem with
  | zero =>
    intro i0 hbound
    simp only [stopFrom, Nat.add_zero]
    constructor
    · intro _ i h1 h2
      exact absurd h2 (by omega)
    · intro _
      trivial
  | succ rem ih =>
    intro i0 hbound
    have hepoch : epoch < 2 ^ 64 := lt_of_lt_of_le hE hB
    have hi0 : i0 ≤ epoch := by omega
    simp only [stopFrom]
    rw [usub64_of_le epoch i0 hi0 hepoch]
    by_cases hlt : i0 < epoch
    · have hj : 0 < epoch - i0 := by omega
      rw [if_pos hj, readIdx_of_lt Eout epoch hE,
        readIdx_of_lt Eout (epoch - i0) (by omega)]
      dsimp only
      by_cases hba : Eout.getD (epoch - i0) 0 < Eout.getD epoch 0
      · rw [if_pos hba]
        constructor
        · intro h
          exact absurd h (by simp)
        · intro hR
          exact absurd (hR i0 le_rfl (by omega) hj) (by omega)
      · rw [if_neg hba, ih (i0 + 1) (by omega)]
        constructor
        · intro h i hge hlt2 hpos
          rcases Nat.eq_or_lt_of_le hge with heq | hgt
          · rw [← heq]
            omega
          · exact h i hgt (by omega) hpos
        · intro h i hge hlt2 hpos
          exact h i (by omega) (by omega) hpos
    · have hj : ¬ 0 < epoch - i0 := by omega
      rw [if_neg hj, ih (i0 + 1) (by omega)]
      constructor
      · intro h i hge hlt2 hpos
        rcases Nat.eq_or_lt_of_le hge with heq | hgt
        · exact absurd hpos (by omega)
        · exact h i hgt (by omega) hpos
      · intro h i hge hlt2 hpos
        exact h i (by omega) (by omega) hpos

/-- Supporting characterization (not tied to a single claim): whenever the
patience window does not reach past epoch 0 (`n ≤ epoch + 1`) and the
call is within the `size_t` domain, no wraparound occurs and
`isEoutStopDecrease` computes exactly the spec §4.4 window condition. -/
theorem isEoutStopDecrease_guarded (Eout : List ℕ) (epoch n : ℕ)
    (hE : epoch < Eout.length) (hB : Eout.length ≤ 2 ^ 64) (hn : n ≤ epoch + 1) :
    (isEoutStopDecrease Eout epoch n = some true ↔ specNonIncWindow Eout epoch n) := by
  unfold isEoutStopDecrease specNonIncWindow
  have h := stopFrom_eq_spec Eout epoch hE hB n 0 (by omega)
  simpa using h

/-- C4 counterexample: the `Config` that `main` builds keeps the
default-constructed `nNonIncEpoch` (here `7`) for two completely
different command lines — the patience window read at the stopping check
comes from the unset default, not from any configuration input. -/
theorem C4_counterexample :
    (mainPlan ⟨1/100, 1/10, 1/2, 100, 7⟩
        ⟨"data/a.dat", "m.init", "", 39, 1, "", 1, 5, 200, 3/5, 1/5, 1/50, 16, 0, 32⟩).config.nNonIncEpoch = 7 ∧
    (mainPlan ⟨1/100, 1/10, 1/2, 100, 7⟩
        ⟨"b.dat", "m2.init", "out.model", 10, 2, "stats.txt", 0, 9, 500, 7/10, 3/10, 1/25, 64, 1, 128⟩).config.nNonIncEpoch = 7 := by
  exact ⟨rfl, rfl⟩

/-- C4 amended: the `Config` consumed by the controller is built once
before training from the command-line values for `variance`,
`learningRate`, `minValidAccuracy` and `maxEpoch`; `nNonIncEpoch` is not
settable from the command line and keeps the externally defined default
of the `Config` constructor. -/
theorem C4_config_fields (dflt : Config) (o : CmdOptions) :
    (mainPlan dflt o).config =
      { variance := o.variance
        learningRate := o.learningRate
        minValidAccuracy := o.minAcc
        maxEpoch := o.maxEpoch
        nNonIncEpoch := dflt.nNonIncEpoch } := rfl

/-- C5: the claim (and the program's own `--type` help text) says the
error measure passed to `dnn_train` follows the classification/regression
selector.  In fact `main` never reads `--type` and hardcodes
`ERROR_MEASURE err = CROSS_ENTROPY` (dnn-train.cpp:106): two command
lines differing only in `--type` (0 vs 1) both pass `CROSS_ENTROPY`. -/
theorem C5_type_ignored_eval :
    (mainPlan ⟨1/100, 1/10, 1/2, 100, 7⟩
        ⟨"data/a.dat", "m.init", "", 39, 1, "", 1, 5, 200, 3/5, 1/5, 1/50, 16, 0, 32⟩).errorMeasure
      = ERROR_MEASURE.CROSS_ENTROPY ∧
    (mainPlan ⟨1/100, 1/10, 1/2, 100, 7⟩
        ⟨"data/a.dat", "m.init", "", 39, 1, "", 1, 5, 200, 3/5, 1/5, 1/50, 16, 1, 32⟩).errorMeasure
      = ERROR_MEASURE.CROSS_ENTROPY := by
  exact ⟨rfl, rfl⟩

/-- C10: two runs whose options differ only in the value of `--nf` are
indistinguishable: the parsed `n_filename` is dead (its only potential
use, dnn-train.cpp:97, is commented out), so every observable `main`
assembles — cache sizing, `Config`, data loading, split, training
parameters, error measure, and the saved-model path — is unchanged. -/
theorem C10_nf_no_effect (dflt : Config) (o : CmdOptions) (nf1 nf2 : String) :
    mainPlan dflt { o with nf := nf1 } = mainPlan dflt { o with nf := nf2 } := rfl

/-- Every iteration of the epoch loop appends exactly one out-of-sample
count to the history, whatever branch it then takes. -/
theorem epochBody_hist (cfg : Config) (batchSize nTrain nValid : ℕ) (lr : ℚ)
    (Ein EoutV : ℕ) (hist : List ℕ) (epoch : ℕ) :
    (epochBody cfg batchSize nTrain nValid lr Ein EoutV hist epoch).hist
      = hist ++ [EoutV] := rfl

/-- The history after `n + 1` epochs extends the history after `n`. -/
theorem histSoFar_succ (EoutSeq : ℕ → ℕ) (n : ℕ) :
    histSoFar EoutSeq (n + 1) = histSoFar EoutSeq n ++ [EoutSeq n] := by
  unfold histSoFar
  rw [List.range_succ, List.map_append]
  rfl

/-- Reading the history of the first `n` epochs at an epoch `i < n` is in
bounds and yields that epoch's count. -/
theorem histSoFar_get (EoutSeq : ℕ → ℕ) (n i : ℕ) (h : i < n) :
    readIdx (histSoFar EoutSeq n) i = some (EoutSeq i) := by
  have hl : i < (histSoFar EoutSeq n).length := by
    simpa [histSoFar] using h
  rw [readIdx_of_lt _ _ hl]
  congr 1
  simp [histSoFar, List.getD_eq_getElem?_getD, List.getElem?_range, h]

/-- When the epoch index is within the just-extended history, the
controller's own `Eout[epoch]` read cannot take the out-of-bounds
branch. -/
theorem epochBody_ctl_ne_ubRead (cfg : Config) (batchSize nTrain nValid : ℕ) (lr : ℚ)
    (Ein EoutV : ℕ) (hist : List ℕ) (epoch : ℕ) (h : epoch < hist.length + 1) :
    (epochBody cfg batchSize nTrain nValid lr Ein EoutV hist epoch).ctl ≠ Ctl.ubRead := by
  have hl : epoch < (hist ++ [EoutV]).length := by
    simp
    omega
  simp only [epochBody]
  split
  · simp
  · rw [readIdx_of_lt _ _ hl]
    dsimp only
    split
    · split
      · simp
      · simp
      · simp
    · simp

/-- If an iteration of the epoch loop ends in the stopping `break`, then
the summary-row read succeeded, the validation accuracy computed from it
strictly exceeds `minValidAccuracy`, and the stopping policy returned
`true` on the extended history. -/
theorem epochBody_stop (cfg : Config) (batchSize nTrain nValid : ℕ) (lr : ℚ)
    (Ein EoutV : ℕ) (hist : List ℕ) (epoch : ℕ)
    (hc : (epochBody cfg batchSize nTrain nValid lr Ein EoutV hist epoch).ctl = Ctl.stop) :
    ∃ eoutE, readIdx (hist ++ [EoutV]) epoch = some eoutE ∧
      cfg.minValidAccuracy < 1 - (eoutE : ℚ) / (nValid : ℚ) ∧
      isEoutStopDecrease (hist ++ [EoutV]) epoch cfg.nNonIncEpoch = some true := by
  simp only [epochBody] at hc
  split at hc
  · simp at hc
  · split at hc
    · simp at hc
    · rename_i eoutE heq
      split at hc
      · rename_i hv
        split at hc
        · simp at hc
        · rename_i hp
          exact ⟨eoutE, heq, hv, hp⟩
        · simp at hc
      · simp at hc

/-- Run-level invariant: starting any number of epochs into a run whose
history so far is exactly one count per completed epoch, the remaining
run only ever extends that history (one entry per iteration) and the
controller's own `Eout[epoch]` reads never go out of bounds. -/
theorem runFrom_inv (cfg : Config) (batchSize nTrain nValid : ℕ) (lr : ℚ)
    (EinSeq EoutSeq : ℕ → ℕ) :
    ∀ (k e : ℕ) (evs : List Event),
      ∃ m,
        (runFrom cfg batchSize nTrain nValid lr EinSeq EoutSeq k e
            (histSoFar EoutSeq e) evs).hist = histSoFar EoutSeq (e + m) ∧
        ((runFrom cfg batchSize nTrain nValid lr EinSeq EoutSeq k e
            (histSoFar EoutSeq e) evs).kind).isUbRead = false := by
  intro k
  induction k with
  | zero =>
    intro e evs
    exact ⟨0, rfl, rfl⟩
  | succ k ih =>
    intro e evs
    rcases hE : epochBody cfg batchSize nTrain nValid lr (EinSeq e) (EoutSeq e)
        (histSoFar EoutSeq e) e with ⟨hh, ee, ctl⟩
    have hh2 : hh = histSoFar EoutSeq (e + 1) := by
      have h1 := epochBody_hist cfg batchSize nTrain nValid lr (EinSeq e) (EoutSeq e)
        (histSoFar EoutSeq e) e
      rw [hE] at h1
      dsimp only at h1
      rw [h1, ← histSoFar_succ]
    have hctl : ctl ≠ Ctl.ubRead := by
      have h1 := epochBody_ctl_ne_ubRead cfg batchSize nTrain nValid lr (EinSeq e)
        (EoutSeq e) (histSoFar EoutSeq e) e (by simp [histSoFar])
      rw [hE] at h1
      exact h1
    cases ctl
    · obtain ⟨m, hm1, hm2⟩ := ih (e + 1) (evs ++ ee)
      refine ⟨m + 1, ?_, ?_⟩
      · simp only [runFrom, hE, hh2, hm1]
        congr 1
        omega
      · simp only [runFrom, hE, hh2, hm2]
    · exact ⟨1, by simp only [runFrom, hE]; exact hh2, by simp only [runFrom, hE]; rfl⟩
    · exact absurd rfl hctl
    · exact ⟨1, by simp only [runFrom, hE]; exact hh2, by simp only [runFrom, hE]; rfl⟩

/-- C8: the out-of-sample history is append-only with exactly one entry
per completed epoch.  (i) Every iteration of the epoch loop — including
skipped epochs — appends exactly one count; (ii) starting from a
consistent history, the controller's `Eout[epoch]` reads are in bounds in
every reachable state, and so is the full run `dnn_train_run`; (iii) the
history only ever grows, ending as exactly the per-epoch counts of the
epochs run — nothing is removed or overwritten. -/
theorem C8_history_append_only (cfg : Config) (batchSize nTrain nValid : ℕ) (lr : ℚ)
    (EinSeq EoutSeq : ℕ → ℕ) :
    (∀ (hist : List ℕ) (epoch : ℕ),
        (epochBody cfg batchSize nTrain nValid lr (EinSeq epoch) (EoutSeq epoch)
            hist epoch).hist = hist ++ [EoutSeq epoch]) ∧
    (∀ (k e : ℕ) (evs : List Event),
        ((runFrom cfg batchSize nTrain nValid lr EinSeq EoutSeq k e
            (histSoFar EoutSeq e) evs).kind).isUbRead = false) ∧
    ((dnn_train_run cfg batchSize nTrain nValid EinSeq EoutSeq).kind.isUbRead = false) ∧
    (∀ (k e : ℕ) (evs : List Event),
        ∃ m, (runFrom cfg batchSize nTrain nValid lr EinSeq EoutSeq k e
              (histSoFar EoutSeq e) evs).hist = histSoFar EoutSeq (e + m)) := by
  refine ⟨?_, ?_, ?_, ?_⟩
  · intro hist epoch
    exact epochBody_hist cfg batchSize nTrain nValid lr (EinSeq epoch) (EoutSeq epoch)
      hist epoch
  · intro k e evs
    exact (runFrom_inv cfg batchSize nTrain nValid lr EinSeq EoutSeq k e evs).choose_spec.2
  · exact (runFrom_inv cfg batchSize nTrain nValid
      (cfg.learningRate / (batchSize : ℚ)) EinSeq EoutSeq cfg.maxEpoch 0
      []).choose_spec.2
  · intro k e evs
    obtain ⟨m, hm, _⟩ := runFrom_inv cfg batchSize nTrain nValid lr EinSeq EoutSeq k e evs
    exact ⟨m, hm⟩

/-- Run-level invariant behind C7: a run that ends `converged` did so at
an epoch whose validation accuracy strictly exceeds the configured floor
and at which the stopping policy returned `true`. -/
theorem runFrom_converged_inv (cfg : Config) (batchSize nTrain nValid : ℕ) (lr : ℚ)
    (EinSeq EoutSeq : ℕ → ℕ) :
    ∀ (k e : ℕ) (evs : List Event) (e2 : ℕ) (h2 : List ℕ) (ev2 : List Event),
      runFrom cfg batchSize nTrain nValid lr EinSeq EoutSeq k e
          (histSoFar EoutSeq e) evs = ⟨TermKind.converged e2, h2, ev2⟩ →
      cfg.minValidAccuracy < 1 - (EoutSeq e2 : ℚ) / (nValid : ℚ) ∧
      isEoutStopDecrease (histSoFar EoutSeq (e2 + 1)) e2 cfg.nNonIncEpoch = some true := by
  intro k
  induction k with
  | zero =>
    intro e evs e2 h2 ev2 hrun
    simp only [runFrom] at hrun
    simp at hrun
  | succ k ih =>
    intro e evs e2 h2 ev2 hrun
    rcases hE : epochBody cfg batchSize nTrain nValid lr (EinSeq e) (EoutSeq e)
        (histSoFar EoutSeq e) e with ⟨hh, ee, ctl⟩
    have hh2 : hh = histSoFar EoutSeq (e + 1) := by
      have h1 := epochBody_hist cfg batchSize nTrain nValid lr (EinSeq e) (EoutSeq e)
        (histSoFar EoutSeq e) e
      rw [hE] at h1
      dsimp only at h1
      rw [h1, ← histSoFar_succ]
    cases ctl
    · simp only [runFrom, hE] at hrun
      rw [hh2] at hrun
      exact ih (e + 1) (evs ++ ee) e2 h2 ev2 hrun
    · simp only [runFrom, hE] at hrun
      have he2 : e = e2 := by
        have hk := congrArg RunResult.kind hrun
        dsimp only at hk
        injection hk
      obtain ⟨eoutE, hre, hv, hp⟩ :=
        epochBody_stop cfg batchSize nTrain nValid lr (EinSeq e) (EoutSeq e)
          (histSoFar EoutSeq e) e (by rw [hE])
      rw [← histSoFar_succ] at hre hp
      rw [histSoFar_get EoutSeq (e + 1) e (by omega)] at hre
      injection hre with hre2
      rw [← he2]
      exact ⟨by rwa [← hre2] at hv, hp⟩
    · simp only [runFrom, hE] at hrun
      simp at hrun
    · simp only [runFrom, hE] at hrun
      simp at hrun

/-- C7: the training loop never breaks out as CONVERGED in an epoch whose
validation accuracy is not strictly above `Config.minValidAccuracy`:
whenever `dnn_train` ends by the stopping `break`, the accuracy-floor
condition held (and the stopping policy returned `true`) at the break
epoch — in particular the error-trend policy alone never stops
training. -/
theorem C7_converged_requires_acc (cfg : Config) (batchSize nTrain nValid : ℕ)
    (EinSeq EoutSeq : ℕ → ℕ) (e2 : ℕ) (h2 : List ℕ) (ev2 : List Event)
    (h : dnn_train_run cfg batchSize nTrain nValid EinSeq EoutSeq
        = ⟨TermKind.converged e2, h2, ev2⟩) :
    cfg.minValidAccuracy < 1 - (EoutSeq e2 : ℚ) / (nValid : ℚ) ∧
    isEoutStopDecrease (histSoFar EoutSeq (e2 + 1)) e2 cfg.nNonIncEpoch = some true :=
  runFrom_converged_inv cfg batchSize nTrain nValid
    (cfg.learningRate / (batchSize : ℚ)) EinSeq EoutSeq cfg.maxEpoch 0 [] e2 h2 ev2 h

/-- C6: in an epoch whose computed training accuracy
`trainAcc = 1 - Ein/nTrain` is negative, the controller emits only the
progress marker after the batch loop and the history append — no summary
row, no stopping-policy call, no learning-rate adjustment — and falls
through to the next epoch; the epoch's out-of-sample count was already
appended before the skip. -/
theorem C6_negative_trainAcc_skip (cfg : Config) (batchSize nTrain nValid : ℕ)
    (lr : ℚ) (Ein EoutV : ℕ) (hist : List ℕ) (epoch : ℕ)
    (h : (1 : ℚ) - (Ein : ℚ) / (nTrain : ℚ) < 0) :
    epochBody cfg batchSize nTrain nValid lr Ein EoutV hist epoch =
      ⟨hist ++ [EoutV],
        batchEvents epoch batchSize nTrain lr
          ++ [Event.pushEout epoch EoutV, Event.progressDot epoch],
        Ctl.next⟩ := by
  simp only [epochBody, if_pos h]

/-- Every event an iteration of the epoch loop emits either is not a
`backProp`, or carries exactly the learning rate `lr` the iteration was
given. -/
theorem epochBody_events_lr (cfg : Config) (batchSize nTrain nValid : ℕ) (lr : ℚ)
    (Ein EoutV : ℕ) (hist : List ℕ) (epoch : ℕ) :
    ∀ ev ∈ (epochBody cfg batchSize nTrain nValid lr Ein EoutV hist epoch).events,
      lrOnly lr ev := by
  intro ev hev
  simp only [epochBody] at hev
  rw [List.mem_append] at hev
  rcases hev with hb | ht
  · simp only [batchEvents, List.mem_map] at hb
    obtain ⟨r, _, hr⟩ := hb
    intro e b1 b2 q heq
    rw [← hr] at heq
    injection heq with h1 h2 h3 h4
    exact h4.symm
  · intro e b1 b2 q heq
    subst heq
    split at ht
    · simp at ht
    · split at ht
      · simp at ht
      · split at ht
        · split at ht
          · simp at ht
          · simp at ht
          · simp at ht
        · simp at ht

/-- Trace invariant: if every already-accumulated event respects the
effective learning rate, so does every event of the rest of the run. -/
theorem runFrom_events_lr (cfg : Config) (batchSize nTrain nValid : ℕ) (lr : ℚ)
    (EinSeq EoutSeq : ℕ → ℕ) :
    ∀ (k e : ℕ) (hist : List ℕ) (evs : List Event),
      (∀ ev ∈ evs, lrOnly lr ev) →
      ∀ ev ∈ (runFrom cfg batchSize nTrain nValid lr EinSeq EoutSeq k e hist evs).events,
        lrOnly lr ev := by
  intro k
  induction k with
  | zero =>
    intro e hist evs hevs ev hev
    simp only [runFrom] at hev
    exact hevs ev hev
  | succ k ih =>
    intro e hist evs hevs ev hev
    rcases hE : epochBody cfg batchSize nTrain nValid lr (EinSeq e) (EoutSeq e)
        hist e with ⟨hh, ee, ctl⟩
    have hee : ∀ ev2 ∈ ee, lrOnly lr ev2 := by
      intro ev2 h2
      refine epochBody_events_lr cfg batchSize nTrain nValid lr (EinSeq e) (EoutSeq e)
        hist e ev2 ?_
      rw [hE]
      exact h2
    have hcomb : ∀ ev2 ∈ evs ++ ee, lrOnly lr ev2 := by
      intro ev2 h2
      rcases List.mem_append.mp h2 with h3 | h3
      · exact hevs ev2 h3
      · exact hee ev2 h3
    cases ctl
    · simp only [runFrom, hE] at hev
      exact ih (e + 1) hh (evs ++ ee) hcomb ev hev
    · simp only [runFrom, hE] at hev
      exact hcomb ev hev
    · simp only [runFrom, hE] at hev
      exact hcomb ev hev
    · simp only [runFrom, hE] at hev
      exact hcomb ev hev

/-- C9: every `backPropagate` call of every batch of every epoch receives
the effective learning rate `Config.learningRate / batchSize`, computed
once before the first epoch (dnn-train.cpp:130) and never changed by the
controller for the rest of the run. -/
theorem C9_effective_lr (cfg : Config) (batchSize nTrain nValid : ℕ)
    (EinSeq EoutSeq : ℕ → ℕ) (ev : Event)
    (hm : ev ∈ (dnn_train_run cfg batchSize nTrain nValid EinSeq EoutSeq).events)
    (e b1 b2 : ℕ) (q : ℚ) (hev : ev = Event.backProp e b1 b2 q) :
    q = cfg.learningRate / (batchSize : ℚ) :=
  runFrom_events_lr cfg batchSize nTrain nValid (cfg.learningRate / (batchSize : ℚ))
    EinSeq EoutSeq cfg.maxEpoch 0 [] []
    (fun ev2 h2 => absurd h2 (List.not_mem_nil ev2)) ev hm e b1 b2 q hev

/-- Witness for C6 at a concrete skipped epoch: `Ein = 5` on `nTrain = 3`
rows makes `trainAcc` negative, and the iteration reduces to the
batch events, the history append and the progress marker. -/
theorem C6_witness :
    ((1 : ℚ) - ((5 : ℕ) : ℚ) / ((3 : ℕ) : ℚ) < 0) ∧
    epochBody ⟨1/100, 1/10, 1/2, 10, 5⟩ 2 3 3 (1/20) 5 2 [] 0 =
      ⟨[2],
        batchEvents 0 2 3 (1/20)
          ++ [Event.pushEout 0 2, Event.progressDot 0],
        Ctl.next⟩ :=
  ⟨by norm_num,
    C6_negative_trainAcc_skip ⟨1/100, 1/10, 1/2, 10, 5⟩ 2 3 3 (1/20) 5 2 [] 0 (by norm_num)⟩

/-- Witness for C7 at a concrete converged run: with `maxEpoch = 1`,
`minValidAccuracy = 1/2`, `nNonIncEpoch = 1` and perfect predictions the
run converges at epoch 0, and the accuracy-floor and policy conditions
hold there. -/
theorem C7_witness :
    (1 : ℚ) / 2 < 1 - ((0 : ℕ) : ℚ) / ((4 : ℕ) : ℚ) ∧
    isEoutStopDecrease [0] 0 1 = some true :=
  C7_converged_requires_acc ⟨1/100, 1/10, 1/2, 1, 1⟩ 2 4 4 (fun _ => 0) (fun _ => 0)
    0 [0]
    [Event.backProp 0 0 2 (1/20), Event.backProp 0 2 4 (1/20), Event.pushEout 0 0,
      Event.printRow 0 1 4 1 4, Event.policyCall 0 true]
    (by norm_num [dnn_train_run, runFrom, epochBody, batchEvents, batchRanges,
      readIdx, isEoutStopDecrease, stopFrom, usub64, histSoFar,
      List.range_succ, Function.comp])

/-- Witness for C9 at a concrete run: the single batch of the single
epoch receives exactly `learningRate / batchSize = (1/10) / 2 = 1/20`. -/
theorem C9_witness :
    (1 : ℚ) / 20 = (⟨1/100, 1/10, 2, 1, 1⟩ : Config).learningRate / ((2 : ℕ) : ℚ) :=
  C9_effective_lr ⟨1/100, 1/10, 2, 1, 1⟩ 2 2 2 (fun _ => 0) (fun _ => 0)
    (Event.backProp 0 0 2 (1/20))
    (by norm_num [dnn_train_run, runFrom, epochBody, batchEvents, batchRanges,
      readIdx, isEoutStopDecrease, stopFrom, usub64,
      List.range_succ, Function.comp])
    0 0 2 (1/20) rfl
